import Mathlib

/-!
Verification of the ruleengine repository (CEL-based rule/ruleset evaluator).

Shallow embedding notes:
  * Go maps are modelled as association lists with `List.lookup`; a `nil` Go map
    (distinct from an empty one, since writing into it panics) is modelled as
    `Option (List _)` with `none` for `nil` where the distinction matters
    (`RulesetConfig.Globals`, `ErrorHandling.CustomErrorMessages`).
  * A compiled CEL program together with the engine context, fixed for the
    duration of one evaluation call, is modelled by its evaluation outcome
    `EvalOutcome`: either a value (boolean or not) or an evaluation error.
    Compilation of an expression is an external collaborator and is passed in
    as a function `String -> Except String EvalOutcome`.
  * Go `time.Duration` is modelled as nanoseconds (`Nat`); `time.ParseDuration`
    is external and passed in as `String -> Option Nat`.
  * Wall-clock time (`Duration` fields of results, `EvaluateAllRulesets`
    timeouts) is not modelled; no claim depends on it.
  * Dynamic YAML values (`interface` values in Go) are modelled by `GoValue`;
    only their identity matters to the claims.
  * Error values are modelled by their message strings. The Go messages wrap
    names in single quotes; the quotes are omitted here.
-/

namespace Ruleengine

/-- Model of a dynamic YAML value (Go interface value). -/
abbrev GoValue := Nat

/-- Result of converting a CEL output with `out.Value()`: either a Go `bool`
or some non-boolean value (tagged so distinct non-booleans exist). -/
inductive CelValue where
  | bool (b : Bool)
  | nonBool (tag : Nat)
deriving DecidableEq

/-- Outcome of `program.Eval(context)` for a fixed context: a value or an
evaluation error (modelled by its message). -/
inductive EvalOutcome where
  | ok (v : CelValue)
  | err (e : String)
deriving DecidableEq

/-- Rule from config.go, with the `Extends` field used by ruleengine.go. -/
structure Rule where
  name : String
  description : String
  expression : String
  extendsName : String
deriving DecidableEq

/-- Ruleset from config.go (field `Selector` as used by ruleengine.go). -/
structure Ruleset where
  name : String
  description : String
  selector : String
  rules : List String
  customRules : List (String × Rule)
  expression : String
  extendsName : String
deriving DecidableEq

/-- ExecutionPolicy from config.go. -/
structure ExecutionPolicy where
  name : String
  description : String
  stopOnFailure : Bool
  maxExecutionTime : String
deriving DecidableEq

/-- ErrorHandling from config.go. `customErrorMessages = none` models a Go
`nil` map (reads return the zero value; writes panic). -/
structure ErrorHandling where
  executionPolicy : String
  customErrorMessages : Option (List (String × String))
deriving DecidableEq

/-- Environment from config.go. -/
structure Environment where
  globals : Option (List (String × GoValue))
  executionPolicy : String
  errorHandling : ErrorHandling
deriving DecidableEq

/-- RulesetConfig from config.go (metadata fields omitted: no claim uses them). -/
structure RulesetConfig where
  globals : Option (List (String × GoValue))
  rules : List (String × Rule)
  rulesets : List (String × Ruleset)
  executionPolicies : List (String × ExecutionPolicy)
  errorHandling : ErrorHandling
  environments : List (String × Environment)
deriving DecidableEq

/-- Resolved execution policy (ruleengine.go `Policy`), duration in ns. -/
structure Policy where
  stopOnFailure : Bool
  maxExecutionTime : Nat
deriving DecidableEq

/-- RuleResult from rules.go (Duration and the never-assigned Value omitted). -/
structure RuleResult where
  ruleName : String
  passed : Bool
  error : Option String
deriving DecidableEq

/-- RulesetResult from rules.go. `ruleResults` is a Go map keyed by member
name; since rule evaluation is a pure function of the engine, duplicate
members yield identical entries, so the map is modelled as the list of
(name, result) pairs in insertion order. -/
structure RulesetResult where
  rulesetName : String
  passed : Bool
  ruleResults : List (String × RuleResult)
  error : Option String
deriving DecidableEq

/-- Go map assignment `m[k] = v`: overwrite the entry for `k` if present,
otherwise add it. -/
def upsert {α : Type} (k : String) (v : α) : List (String × α) → List (String × α)
  | [] => [(k, v)]
  | (k2, v2) :: rest => if k2 = k then (k, v) :: rest else (k2, v2) :: upsert k v rest

/-- One `for k, v := range entries { base[k] = v }` loop over a possibly-nil
base map. Result `none` models the Go panic "assignment to entry in nil map",
which happens exactly when at least one iteration runs and the base is nil. -/
def mergeEntries {α : Type} (base : Option (List (String × α)))
    (entries : List (String × α)) : Option (Option (List (String × α))) :=
  match entries, base with
  | [], b => some b
  | _ :: _, none => none
  | es, some b => some (some (es.foldl (fun acc kv => upsert kv.1 kv.2 acc) b))

/-- ApplyEnvironment from config.go. Result `none` models a runtime panic
(assignment into a nil map); `some rc2` is the updated configuration.
The Go function returns an always-nil error, omitted here. -/
def applyEnvironment (rc : RulesetConfig) (environment : String) : Option RulesetConfig :=
  match rc.environments.lookup environment with
  | none => some rc
  | some envConfig =>
    let step1 : Option (Option (List (String × GoValue))) :=
      match envConfig.globals with
      | none => some rc.globals
      | some gs => mergeEntries rc.globals gs
    match step1 with
    | none => none
    | some newGlobals =>
      let newPolicy :=
        if envConfig.errorHandling.executionPolicy ≠ "" then
          envConfig.errorHandling.executionPolicy
        else rc.errorHandling.executionPolicy
      let step2 : Option (Option (List (String × String))) :=
        match envConfig.errorHandling.customErrorMessages with
        | none => some rc.errorHandling.customErrorMessages
        | some ms => mergeEntries rc.errorHandling.customErrorMessages ms
      match step2 with
      | none => none
      | some newMsgs =>
        some { rc with
               globals := newGlobals,
               errorHandling := { executionPolicy := newPolicy,
                                  customErrorMessages := newMsgs } }

/-- Default max execution time: 5 seconds in nanoseconds. -/
def fiveSeconds : Nat := 5000000000

/-- Message of the policy-not-found error from GetExecutionPolicy. -/
def policyNotFoundMsg (n : String) : String :=
  "execution policy " ++ n ++ " not found in config"

/-- Message of the invalid-duration error from GetExecutionPolicy. -/
def invalidDurationMsg : String := "invalid max_execution_time in execution policy"

/-- GetExecutionPolicy from config.go, parameterized by the external duration
parser (`time.ParseDuration`, `none` = parse failure). Returns the policy
value together with an optional error, as in Go. -/
def getExecutionPolicy (parseDuration : String → Option Nat)
    (rc : RulesetConfig) : Policy × Option String :=
  let policy : Policy := { stopOnFailure := true, maxExecutionTime := fiveSeconds }
  match rc.executionPolicies.lookup rc.errorHandling.executionPolicy with
  | some configPolicy =>
    if configPolicy.maxExecutionTime = "" then
      ({ stopOnFailure := configPolicy.stopOnFailure,
         maxExecutionTime := policy.maxExecutionTime }, none)
    else
      match parseDuration configPolicy.maxExecutionTime with
      | none => (policy, some invalidDurationMsg)
      | some dur =>
        ({ stopOnFailure := configPolicy.stopOnFailure, maxExecutionTime := dur }, none)
  | none => (policy, some (policyNotFoundMsg rc.errorHandling.executionPolicy))

/-- Cycle error message from getRuleParents (named after the offending rule). -/
def cycleMsg (rname : String) : String :=
  "circular dependency detected in rule inheritance for rule " ++ rname

/-- Dangling-reference error message from getRuleParents. -/
def danglingMsg (target rname : String) : String :=
  "extended rule " ++ target ++ " not found for rule " ++ rname

/-- The loop of getRuleParents from ruleengine.go. The Go loop keeps a
`visited` set of extends targets; here the complement is kept instead:
`avail` holds the rule-table keys not yet visited (initially all keys), so
that the recursion structurally decreases. A target that is a key but is not
in `avail` has been visited before: circular dependency. A target that is not
a key at all is a dangling reference. -/
def parentsWalk (rules : List (String × Rule)) (rname : String)
    (avail : List String) (t : String) : Except String (List String) :=
  if t = "" then .ok []
  else if h : t ∈ avail then
    match rules.lookup t with
    | none => .error (danglingMsg t rname)
    | some parent =>
      match parentsWalk rules rname (avail.erase t) parent.extendsName with
      | .error e => .error e
      | .ok l => .ok (t :: l)
  else if (rules.lookup t).isSome then .error (cycleMsg rname)
  else .error (danglingMsg t rname)
termination_by avail.length
decreasing_by
  rw [List.length_erase_of_mem h]
  exact Nat.sub_lt (List.length_pos_of_mem h) Nat.one_pos

/-- getRuleParents from ruleengine.go: the ordered ancestor chain of a rule
(immediate parent first), or a cycle/dangling error naming the rule. -/
def getRuleParents (rules : List (String × Rule)) (rule : Rule) :
    Except String (List String) :=
  parentsWalk rules rule.name (rules.map Prod.fst) rule.extendsName

/-- The loop body of compileRules from ruleengine.go, iterating over the rule
table (`iter`), compiling each expression and precomputing each parent chain.
Returns the programs map and the parents map, or the first error. -/
def compileRulesAux (compile : String → Except String EvalOutcome)
    (allRules : List (String × Rule)) :
    List (String × Rule) →
    Except String (List (String × EvalOutcome) × List (String × List String))
  | [] => .ok ([], [])
  | (name, rule) :: rest =>
    match compile rule.expression with
    | .error e => .error ("failed to compile program for rule " ++ name ++ ": " ++ e)
    | .ok prog =>
      match getRuleParents allRules rule with
      | .error e => .error ("failed to find parent rules for rule " ++ name ++ ": " ++ e)
      | .ok ps =>
        match compileRulesAux compile allRules rest with
        | .error e => .error e
        | .ok (progs, pars) => .ok ((name, prog) :: progs, (name, ps) :: pars)

/-- compileRules from ruleengine.go. -/
def compileRules (compile : String → Except String EvalOutcome)
    (rules : List (String × Rule)) :
    Except String (List (String × EvalOutcome) × List (String × List String)) :=
  compileRulesAux compile rules rules

/-- RuleEngine from ruleengine.go (the CEL env and the mutable context are
external; program behaviour on the current context is baked into `programs`). -/
structure RuleEngine where
  config : RulesetConfig
  programs : List (String × EvalOutcome)
  parents : List (String × List String)
  policy : Policy
deriving DecidableEq

/-- NewRuleEngine from ruleengine.go, after the external config load:
apply the environment overlay, resolve the execution policy, compile the
rules. A panic in ApplyEnvironment is modelled as the Go runtime message. -/
def newRuleEngine (parseDuration : String → Option Nat)
    (compile : String → Except String EvalOutcome)
    (config0 : RulesetConfig) (environment : String) : Except String RuleEngine :=
  match applyEnvironment config0 environment with
  | none => .error "panic: assignment to entry in nil map"
  | some config =>
    match getExecutionPolicy parseDuration config with
    | (_, some e) => .error ("failed to get execution policy: " ++ e)
    | (policy, none) =>
      match compileRules compile config.rules with
      | .error e => .error ("failed to compile rules: " ++ e)
      | .ok (progs, pars) =>
        .ok { config := config, programs := progs, parents := pars, policy := policy }

/-- Outcome of the evaluation loop of EvaluateRule over a chain of rule
names: a missing compiled program, an evaluation error, or completion with
the final `passed` flag. `trace` records the names whose programs were
actually evaluated, in order. -/
inductive ChainOutcome where
  | missing (r : String)
  | evalErr (e : String) (trace : List String)
  | done (passed : Bool) (trace : List String)
deriving DecidableEq

/-- The flag update of one loop step of EvaluateRule: a boolean result
overwrites the `passed` flag, a non-boolean result leaves it unchanged
(the Go type assertion `value.(bool)` fails silently). -/
def stepFlag (p : Bool) (v : CelValue) : Bool :=
  match v with
  | .bool b => b
  | .nonBool _ => p

/-- The loop of EvaluateRule from ruleengine.go: walk the chain, carrying the
`passed` flag. The loop breaks as soon as the flag is false after a step, and
an evaluation error aborts the walk. -/
def runChain (programs : List (String × EvalOutcome)) :
    Bool → List String → ChainOutcome
  | p, [] => .done p []
  | p, r :: rest =>
    match programs.lookup r with
    | none => .missing r
    | some (.err e) => .evalErr e [r]
    | some (.ok v) =>
      if stepFlag p v then
        match runChain programs (stepFlag p v) rest with
        | .missing r2 => .missing r2
        | .evalErr e tr => .evalErr e (r :: tr)
        | .done q tr => .done q (r :: tr)
      else .done false [r]

/-- Generic failure message of EvaluateRule. -/
def genericRuleMsg (n : String) : String := "rule " ++ n ++ " did not pass evaluation"

/-- Rule-not-found error of EvaluateRule. -/
def ruleNotFoundMsg (n : String) : String := "rule " ++ n ++ " not found"

/-- Program-not-found error of EvaluateRule (Go formats the Rule struct; the
rule name stands in for it here). -/
def programNotFoundMsg (n : String) : String := "program for rule " ++ n ++ " not found"

/-- Generic failure message of EvaluateRuleset. -/
def genericRulesetMsg (n : String) : String :=
  "ruleset " ++ n ++ " did not pass evaluation"

/-- Ruleset-not-found error of EvaluateRuleset. -/
def rulesetNotFoundMsg (n : String) : String := "ruleset " ++ n ++ " not found"

/-- The custom_error_messages table as read by the engine (reading a nil Go
map yields no entries). -/
def customMsgs (re : RuleEngine) : List (String × String) :=
  re.config.errorHandling.customErrorMessages.getD []

/-- The chain evaluated by EvaluateRule: the precomputed parents (immediate
parent first), then the rule itself. -/
def chainOf (re : RuleEngine) (ruleName : String) : List String :=
  ((re.parents.lookup ruleName).getD []) ++ [ruleName]

/-- The zero value of RuleResult, returned alongside every error. -/
def zeroRuleResult : RuleResult := { ruleName := "", passed := false, error := none }

/-- The zero value of RulesetResult. -/
def zeroRulesetResult : RulesetResult :=
  { rulesetName := "", passed := false, ruleResults := [], error := none }

/-- EvaluateRule from ruleengine.go. Returns the pair (RuleResult, error)
exactly as the Go function does. -/
def evaluateRule (re : RuleEngine) (ruleName : String) : RuleResult × Option String :=
  match re.config.rules.lookup ruleName with
  | none => (zeroRuleResult, some (ruleNotFoundMsg ruleName))
  | some _ =>
    match runChain re.programs false (chainOf re ruleName) with
    | .missing _ => (zeroRuleResult, some (programNotFoundMsg ruleName))
    | .evalErr e _ => ({ ruleName := ruleName, passed := false, error := some e }, none)
    | .done passed _ =>
      if passed then ({ ruleName := ruleName, passed := true, error := none }, none)
      else
        ({ ruleName := ruleName, passed := false,
           error := some (((customMsgs re).lookup ruleName).getD (genericRuleMsg ruleName)) },
         none)

/-- The names whose programs EvaluateRule actually evaluates for `ruleName`
(the trace of the chain walk). -/
def ruleTrace (re : RuleEngine) (ruleName : String) : List String :=
  match runChain re.programs false (chainOf re ruleName) with
  | .missing _ => []
  | .evalErr _ tr => tr
  | .done _ tr => tr

/-- The member loop of EvaluateRuleset from ruleengine.go: evaluate each
member, record its RuleResult under the member name, and break when the
selector is not OR, the member failed or errored, and the policy says stop
on failure. -/
def evalMembers (re : RuleEngine) (sel : String) : List String → List (String × RuleResult)
  | [] => []
  | r :: rest =>
    if sel ≠ "OR" ∧ ((evaluateRule re r).1.passed = false ∨ (evaluateRule re r).2 ≠ none) ∧
        re.policy.stopOnFailure = true then
      [(r, (evaluateRule re r).1)]
    else
      (r, (evaluateRule re r).1) :: evalMembers re sel rest

/-- The selector switch of EvaluateRuleset: AND and the default case require
every recorded result to have passed; OR requires at least one. -/
def aggregatePassed (sel : String) (rrs : List (String × RuleResult)) : Bool :=
  if sel = "AND" then rrs.all (fun p => p.2.passed)
  else if sel = "OR" then rrs.any (fun p => p.2.passed)
  else rrs.all (fun p => p.2.passed)

/-- EvaluateRuleset from ruleengine.go. Returns the pair
(RulesetResult, error) exactly as the Go function does. -/
def evaluateRuleset (re : RuleEngine) (rulesetName : String) :
    RulesetResult × Option String :=
  match re.config.rulesets.lookup rulesetName with
  | none => (zeroRulesetResult, some (rulesetNotFoundMsg rulesetName))
  | some ruleset =>
    let rrs := evalMembers re ruleset.selector ruleset.rules
    let passed := aggregatePassed ruleset.selector rrs
    let errorMessage :=
      if passed then none
      else
        some (((customMsgs re).lookup rulesetName).getD (genericRulesetMsg rulesetName))
    ({ rulesetName := rulesetName, passed := passed, ruleResults := rrs,
       error := errorMessage }, none)

/-! Basic lemmas about the chain walk. -/

/-- A rule whose compiled program evaluates to boolean true. -/
abbrev yieldsOkTrue (re : RuleEngine) (r : String) : Prop :=
  re.programs.lookup r = some (.ok (.bool true))

/-- A rule whose compiled program evaluates to boolean false. -/
abbrev yieldsOkFalse (re : RuleEngine) (r : String) : Prop :=
  re.programs.lookup r = some (.ok (.bool false))

/-- A rule whose compiled program evaluates without error. -/
def yieldsOk (re : RuleEngine) (r : String) : Prop :=
  ∃ v, re.programs.lookup r = some (.ok v)

/-- A rule whose compiled program evaluation errors. -/
def yieldsErr (re : RuleEngine) (r : String) : Prop :=
  ∃ e, re.programs.lookup r = some (.err e)

/-- The names actually evaluated in a chain-walk outcome. -/
def traceOf : ChainOutcome → List String
  | .missing _ => []
  | .evalErr _ tr => tr
  | .done _ tr => tr

theorem runChain_cons_none {ps : List (String × EvalOutcome)} {r : String}
    {rest : List String} (p : Bool) (hl : ps.lookup r = none) :
    runChain ps p (r :: rest) = .missing r := by
  simp [runChain, hl]

theorem runChain_cons_err {ps : List (String × EvalOutcome)} {r e : String}
    {rest : List String} (p : Bool) (hl : ps.lookup r = some (.err e)) :
    runChain ps p (r :: rest) = .evalErr e [r] := by
  simp [runChain, hl]

theorem runChain_cons_ok_true {ps : List (String × EvalOutcome)} {r : String}
    {rest : List String} {p : Bool} {v : CelValue}
    (hl : ps.lookup r = some (.ok v)) (hf : stepFlag p v = true) :
    runChain ps p (r :: rest) =
      (match runChain ps true rest with
       | .missing r2 => .missing r2
       | .evalErr e tr => .evalErr e (r :: tr)
       | .done q tr => .done q (r :: tr)) := by
  simp [runChain, hl, hf]

theorem runChain_cons_ok_false {ps : List (String × EvalOutcome)} {r : String}
    {rest : List String} {p : Bool} {v : CelValue}
    (hl : ps.lookup r = some (.ok v)) (hf : stepFlag p v = false) :
    runChain ps p (r :: rest) = .done false [r] := by
  simp [runChain, hl, hf]

/-- The evaluated names always form a front segment of the chain. -/
theorem runChain_trace_front (ps : List (String × EvalOutcome)) :
    ∀ (l : List String) (p : Bool), ∃ rest2, l = traceOf (runChain ps p l) ++ rest2 := by
  intro l
  induction l with
  | nil => intro p; exact ⟨[], rfl⟩
  | cons r rest ih =>
    intro p
    cases hl : ps.lookup r with
    | none => exact ⟨r :: rest, by rw [runChain_cons_none p hl]; rfl⟩
    | some o =>
      cases o with
      | err e => exact ⟨rest, by rw [runChain_cons_err p hl]; rfl⟩
      | ok v =>
        cases hf : stepFlag p v with
        | false => exact ⟨rest, by rw [runChain_cons_ok_false hl hf]; rfl⟩
        | true =>
          obtain ⟨rest2, h2⟩ := ih true
          rw [runChain_cons_ok_true hl hf]
          cases ho : runChain ps true rest with
          | missing r2 => exact ⟨r :: rest, by simp [traceOf]⟩
          | evalErr e tr =>
            rw [ho] at h2
            exact ⟨rest2, by simpa [traceOf] using congrArg (r :: ·) h2⟩
          | done q tr =>
            rw [ho] at h2
            exact ⟨rest2, by simpa [traceOf] using congrArg (r :: ·) h2⟩

/-- With the flag already true, a chain of error-free programs none of which
evaluates to boolean false runs to completion with the flag still true. -/
theorem runChain_true_all {ps : List (String × EvalOutcome)} :
    ∀ {l : List String},
      (∀ r ∈ l, ∃ v, ps.lookup r = some (.ok v)) →
      (∀ r ∈ l, ps.lookup r ≠ some (.ok (.bool false))) →
      runChain ps true l = .done true l := by
  intro l
  induction l with
  | nil => intro _ _; rfl
  | cons r rest ih =>
    intro h1 h2
    obtain ⟨v, hv⟩ := h1 r (by simp)
    have hf : stepFlag true v = true := by
      cases v with
      | bool b =>
        cases b with
        | false => exact absurd hv (h2 r (by simp))
        | true => rfl
      | nonBool t => rfl
    rw [runChain_cons_ok_true hv hf,
        ih (fun r hr => h1 r (by simp [hr])) (fun r hr => h2 r (by simp [hr]))]

/-- Converse of `runChain_true_all`: completing with a true flag forces every
program in the chain to be error-free and none to be boolean false, and the
whole chain to have been evaluated. -/
theorem runChain_true_done {ps : List (String × EvalOutcome)} :
    ∀ {l tr : List String},
      runChain ps true l = .done true tr →
      tr = l ∧ ∀ r ∈ l, (∃ v, ps.lookup r = some (.ok v)) ∧
        ps.lookup r ≠ some (.ok (.bool false)) := by
  intro l
  induction l with
  | nil =>
    intro tr h
    simp only [runChain, ChainOutcome.done.injEq] at h
    exact ⟨h.2.symm, by simp⟩
  | cons r rest ih =>
    intro tr h
    cases hl : ps.lookup r with
    | none => rw [runChain_cons_none true hl] at h; exact absurd h (by simp)
    | some o =>
      cases o with
      | err e => rw [runChain_cons_err true hl] at h; exact absurd h (by simp)
      | ok v =>
        cases hf : stepFlag true v with
        | false =>
          rw [runChain_cons_ok_false hl hf] at h
          exact absurd h (by simp)
        | true =>
          rw [runChain_cons_ok_true hl hf] at h
          cases ho : runChain ps true rest with
          | missing r2 => rw [ho] at h; exact absurd h (by simp)
          | evalErr e tr2 => rw [ho] at h; exact absurd h (by simp)
          | done q tr2 =>
            rw [ho] at h
            simp only [ChainOutcome.done.injEq] at h
            obtain ⟨hq, htr⟩ := h
            obtain ⟨htr2, hrest⟩ := ih (hq ▸ ho)
            refine ⟨by rw [← htr, htr2], ?_⟩
            intro r2 hr2
            rcases List.mem_cons.mp hr2 with h2 | h2
            · subst h2
              refine ⟨⟨v, hl⟩, ?_⟩
              intro hcon
              rw [hl] at hcon
              simp only [Option.some.injEq, EvalOutcome.ok.injEq] at hcon
              rw [hcon] at hf
              simp [stepFlag] at hf
            · exact hrest r2 h2

/-- Starting from a false flag, the chain completes with a true flag exactly
when the head program yields boolean true; the rest must then be error-free
with no boolean false. -/
theorem runChain_false_done_true {ps : List (String × EvalOutcome)}
    {f : String} {rest tr : List String}
    (h : runChain ps false (f :: rest) = .done true tr) :
    ps.lookup f = some (.ok (.bool true)) ∧ tr = f :: rest ∧
      ∀ r ∈ rest, (∃ v, ps.lookup r = some (.ok v)) ∧
        ps.lookup r ≠ some (.ok (.bool false)) := by
  cases hl : ps.lookup f with
  | none => rw [runChain_cons_none false hl] at h; exact absurd h (by simp)
  | some o =>
    cases o with
    | err e => rw [runChain_cons_err false hl] at h; exact absurd h (by simp)
    | ok v =>
      cases hf : stepFlag false v with
      | false =>
        rw [runChain_cons_ok_false hl hf] at h
        exact absurd h (by simp)
      | true =>
        have hv : v = .bool true := by
          cases v with
          | bool b => cases b with
            | false => simp [stepFlag] at hf
            | true => rfl
          | nonBool t => simp [stepFlag] at hf
        subst hv
        rw [runChain_cons_ok_true hl hf] at h
        cases ho : runChain ps true rest with
        | missing r2 => rw [ho] at h; exact absurd h (by simp)
        | evalErr e tr2 => rw [ho] at h; exact absurd h (by simp)
        | done q tr2 =>
          rw [ho] at h
          simp only [ChainOutcome.done.injEq] at h
          obtain ⟨hq, htr⟩ := h
          obtain ⟨htr2, hrest⟩ := runChain_true_done (hq ▸ ho)
          exact ⟨rfl, by rw [← htr, htr2], hrest⟩

/-- With a true flag, a front of error-free, never-boolean-false programs is
walked through, and an erroring program right after it aborts the walk with
that error, the trace covering exactly the front and the erroring name. -/
theorem runChain_true_err {ps : List (String × EvalOutcome)} {x e : String}
    {post : List String} :
    ∀ {mid : List String},
      (∀ r ∈ mid, ∃ v, ps.lookup r = some (.ok v)) →
      (∀ r ∈ mid, ps.lookup r ≠ some (.ok (.bool false))) →
      ps.lookup x = some (.err e) →
      runChain ps true (mid ++ x :: post) = .evalErr e (mid ++ [x]) := by
  intro mid
  induction mid with
  | nil => intro _ _ hx; exact runChain_cons_err true hx
  | cons r rest ih =>
    intro h1 h2 hx
    obtain ⟨v, hv⟩ := h1 r (by simp)
    have hf : stepFlag true v = true := by
      cases v with
      | bool b =>
        cases b with
        | false => exact absurd hv (h2 r (by simp))
        | true => rfl
      | nonBool t => rfl
    rw [List.cons_append, runChain_cons_ok_true hv hf,
        ih (fun r hr => h1 r (by simp [hr])) (fun r hr => h2 r (by simp [hr])) hx]
    rfl

/-- If some program at position `pre.length` in the chain yields boolean
false or errors, the walk never evaluates more than `pre.length + 1`
programs, whatever the incoming flag. -/
theorem runChain_stop_bound {ps : List (String × EvalOutcome)} {x : String}
    {post : List String}
    (hx : (∃ e, ps.lookup x = some (.err e)) ∨ ps.lookup x = some (.ok (.bool false))) :
    ∀ {pre : List String} (p : Bool),
      (∃ r2, runChain ps p (pre ++ x :: post) = .missing r2) ∨
        (traceOf (runChain ps p (pre ++ x :: post))).length ≤ pre.length + 1 := by
  intro pre
  induction pre with
  | nil =>
    intro p
    rcases hx with ⟨e, he⟩ | hfalse
    · right; rw [List.nil_append, runChain_cons_err p he]; simp [traceOf]
    · right
      rw [List.nil_append, runChain_cons_ok_false hfalse (by simp [stepFlag])]
      simp [traceOf]
  | cons r rest ih =>
    intro p
    cases hl : ps.lookup r with
    | none =>
      exact Or.inl ⟨r, by rw [List.cons_append, runChain_cons_none p hl]⟩
    | some o =>
      cases o with
      | err e =>
        right; rw [List.cons_append, runChain_cons_err p hl]; simp [traceOf]
      | ok v =>
        cases hf : stepFlag p v with
        | false =>
          right; rw [List.cons_append, runChain_cons_ok_false hl hf]; simp [traceOf]
        | true =>
          rw [List.cons_append, runChain_cons_ok_true hl hf]
          rcases ih true with ⟨r2, h2⟩ | h2
          · exact Or.inl ⟨r2, by rw [h2]⟩
          · right
            cases ho : runChain ps true (rest ++ x :: post) with
            | missing r2 => simp [traceOf]
            | evalErr e tr =>
              rw [ho] at h2
              simpa [traceOf] using Nat.succ_le_succ h2
            | done q tr =>
              rw [ho] at h2
              simpa [traceOf] using Nat.succ_le_succ h2

/-- A front segment no longer than `pre.length + 1` of `pre ++ x :: post`
only contains elements of `pre ++ [x]`. -/
theorem front_mem {pre post tr rest2 : List String} {x y : String}
    (h : pre ++ x :: post = tr ++ rest2) (hlen : tr.length ≤ pre.length + 1)
    (hy : y ∈ tr) : y ∈ pre ++ [x] := by
  have hassoc : (pre ++ [x]) ++ post = tr ++ rest2 := by
    rw [List.append_assoc]; simpa using h
  have hlen2 : tr.length ≤ (pre ++ [x]).length := by simpa using hlen
  have h2 : tr = (pre ++ [x]).take tr.length := by
    have h3 : ((pre ++ [x]) ++ post).take tr.length = tr := by
      rw [hassoc, List.take_append_of_le_length (le_refl _), List.take_length]
    rw [List.take_append_of_le_length hlen2] at h3
    exact h3.symm
  exact List.take_subset _ _ (h2 ▸ hy)

/-- Starting from a false flag, an error-free front with boolean-true head
and no boolean false is walked through, and an erroring program right after
it aborts the walk with that error passed through. -/
theorem runChain_false_err {ps : List (String × EvalOutcome)} {x e : String}
    {post pre : List String}
    (h1 : ∀ r ∈ pre, ∃ v, ps.lookup r = some (.ok v))
    (h2 : ∀ r ∈ pre, ps.lookup r ≠ some (.ok (.bool false)))
    (h3 : pre = [] ∨ ∃ f rest, pre = f :: rest ∧ ps.lookup f = some (.ok (.bool true)))
    (hx : ps.lookup x = some (.err e)) :
    runChain ps false (pre ++ x :: post) = .evalErr e (pre ++ [x]) := by
  rcases h3 with h3 | ⟨f, rest, h3, hfy⟩
  · subst h3
    rw [List.nil_append, runChain_cons_err false hx]
    rfl
  · subst h3
    rw [List.cons_append, runChain_cons_ok_true hfy (by simp [stepFlag]),
        runChain_true_err (fun r hr => h1 r (by simp [hr]))
          (fun r hr => h2 r (by simp [hr])) hx]
    rfl

/-- When every program of the chain evaluates without error, the walk always
completes (no missing-program, no evaluation error). -/
theorem runChain_ok_done {ps : List (String × EvalOutcome)} :
    ∀ {l : List String} (p : Bool), (∀ r ∈ l, ∃ v, ps.lookup r = some (.ok v)) →
      ∃ q tr, runChain ps p l = .done q tr := by
  intro l
  induction l with
  | nil => intro p _; exact ⟨p, [], rfl⟩
  | cons r rest ih =>
    intro p h1
    obtain ⟨v, hv⟩ := h1 r (by simp)
    cases hf : stepFlag p v with
    | false => exact ⟨false, [r], runChain_cons_ok_false hv hf⟩
    | true =>
      obtain ⟨q, tr, hq⟩ := ih true (fun r hr => h1 r (by simp [hr]))
      exact ⟨q, r :: tr, by rw [runChain_cons_ok_true hv hf, hq]⟩

/-- The trace observed by EvaluateRule is the trace of the chain walk. -/
theorem ruleTrace_eq (re : RuleEngine) (n : String) :
    ruleTrace re n = traceOf (runChain re.programs false (chainOf re n)) := by
  unfold ruleTrace
  cases runChain re.programs false (chainOf re n) <;> rfl

/-- EvaluateRule when the rule name is not in the rule table. -/
theorem evaluateRule_notfound {re : RuleEngine} {n : String}
    (h : re.config.rules.lookup n = none) :
    evaluateRule re n = (zeroRuleResult, some (ruleNotFoundMsg n)) := by
  simp [evaluateRule, h]

/-- EvaluateRule when the chain walk errors. -/
theorem evaluateRule_evalErr {re : RuleEngine} {n : String} {rule : Rule}
    {e : String} {tr : List String}
    (h : re.config.rules.lookup n = some rule)
    (hrun : runChain re.programs false (chainOf re n) = .evalErr e tr) :
    evaluateRule re n = ({ ruleName := n, passed := false, error := some e }, none) := by
  simp [evaluateRule, h, hrun]

/-- EvaluateRule when the chain walk completes. -/
theorem evaluateRule_done {re : RuleEngine} {n : String} {rule : Rule}
    {q : Bool} {tr : List String}
    (h : re.config.rules.lookup n = some rule)
    (hrun : runChain re.programs false (chainOf re n) = .done q tr) :
    evaluateRule re n =
      (if q then ({ ruleName := n, passed := true, error := none }, none)
       else ({ ruleName := n, passed := false,
               error := some (((customMsgs re).lookup n).getD (genericRuleMsg n)) }, none)) := by
  simp only [evaluateRule, h, hrun]

/-- The final passed flag of EvaluateRule, characterized: true exactly when
the first program of the chain yields boolean true and every program of the
chain evaluates without error with no boolean false among the results. -/
theorem evaluateRule_passed_char {re : RuleEngine} {n : String} {rule : Rule}
    (hr : re.config.rules.lookup n = some rule) :
    (evaluateRule re n).1.passed = true ↔
      (∃ f rest, chainOf re n = f :: rest ∧ yieldsOkTrue re f) ∧
        ∀ r ∈ chainOf re n, yieldsOk re r ∧ ¬ yieldsOkFalse re r := by
  constructor
  · intro h
    cases hrun : runChain re.programs false (chainOf re n) with
    | missing r2 =>
      rw [show (evaluateRule re n) = (zeroRuleResult, some (programNotFoundMsg n)) by
            simp [evaluateRule, hr, hrun]] at h
      exact absurd h (by simp [zeroRuleResult])
    | evalErr e tr =>
      rw [evaluateRule_evalErr hr hrun] at h
      exact absurd h (by simp)
    | done q tr =>
      rw [evaluateRule_done hr hrun] at h
      cases q with
      | false => exact absurd h (by simp)
      | true =>
        obtain ⟨f, rest, hchain⟩ :
            ∃ f rest, chainOf re n = f :: rest := by
          unfold chainOf
          cases hp : (re.parents.lookup n).getD [] with
          | nil => exact ⟨n, [], rfl⟩
          | cons a b => exact ⟨a, b ++ [n], rfl⟩
        rw [hchain] at hrun
        obtain ⟨hf, htr, hrest⟩ := runChain_false_done_true hrun
        refine ⟨⟨f, rest, hchain, hf⟩, ?_⟩
        intro r hr2
        rw [hchain] at hr2
        rcases List.mem_cons.mp hr2 with h2 | h2
        · subst h2
          exact ⟨⟨.bool true, hf⟩, by simp [yieldsOkFalse, hf]⟩
        · obtain ⟨hok, hnf⟩ := hrest r h2
          exact ⟨hok, hnf⟩
  · rintro ⟨⟨f, rest, hchain, hf⟩, hall⟩
    have hrun : runChain re.programs false (chainOf re n) = .done true (f :: rest) := by
      rw [hchain]
      rw [runChain_cons_ok_true hf (by simp [stepFlag])]
      rw [runChain_true_all
            (fun r hr2 => (hall r (by rw [hchain]; simp [hr2])).1)
            (fun r hr2 => (hall r (by rw [hchain]; simp [hr2])).2)]
    rw [evaluateRule_done hr hrun]
    simp

/-- The member loop of EvaluateRuleset never breaks for an OR selector or a
non-stop-on-failure policy: every member is evaluated and recorded. -/
theorem evalMembers_no_stop {re : RuleEngine} {sel : String}
    (h : sel = "OR" ∨ re.policy.stopOnFailure = false) :
    ∀ l, evalMembers re sel l = l.map (fun r => (r, (evaluateRule re r).1)) := by
  intro l
  induction l with
  | nil => rfl
  | cons r rest ih =>
    have hcond : ¬(sel ≠ "OR" ∧
        ((evaluateRule re r).1.passed = false ∨ (evaluateRule re r).2 ≠ none) ∧
        re.policy.stopOnFailure = true) := by
      rcases h with h | h
      · intro hc; exact hc.1 h
      · intro hc; rw [h] at hc; exact absurd hc.2.2 (by simp)
    simp only [evalMembers]
    rw [if_neg hcond, ih]
    rfl

/-- The member loop of EvaluateRuleset under fail-fast (selector not OR,
stop-on-failure policy): a front of passing members followed by a failing or
erroring member is recorded exactly up to and including that member. -/
theorem evalMembers_stop {re : RuleEngine} {sel : String}
    (hsel : sel ≠ "OR") (hstop : re.policy.stopOnFailure = true) :
    ∀ {pre : List String} (m : String) (post : List String),
      (∀ r ∈ pre, (evaluateRule re r).1.passed = true ∧ (evaluateRule re r).2 = none) →
      ((evaluateRule re m).1.passed = false ∨ (evaluateRule re m).2 ≠ none) →
      evalMembers re sel (pre ++ m :: post) =
        pre.map (fun r => (r, (evaluateRule re r).1)) ++ [(m, (evaluateRule re m).1)] := by
  intro pre
  induction pre with
  | nil =>
    intro m post _ hm
    simp only [List.nil_append, evalMembers]
    rw [if_pos ⟨hsel, hm, hstop⟩]
    rfl
  | cons r rest ih =>
    intro m post hpre hm
    have hr := hpre r (by simp)
    have hcond : ¬(sel ≠ "OR" ∧
        ((evaluateRule re r).1.passed = false ∨ (evaluateRule re r).2 ≠ none) ∧
        re.policy.stopOnFailure = true) := by
      intro hc
      rcases hc.2.1 with h2 | h2
      · rw [hr.1] at h2; exact absurd h2 (by simp)
      · exact h2 hr.2
    simp only [List.cons_append, evalMembers, List.append_eq]
    rw [if_neg hcond, ih m post (fun r2 hr2 => hpre r2 (by simp [hr2])) hm]
    rfl

/-- EvaluateRuleset when the ruleset name is not in the ruleset table. -/
theorem evaluateRuleset_notfound {re : RuleEngine} {n : String}
    (h : re.config.rulesets.lookup n = none) :
    evaluateRuleset re n = (zeroRulesetResult, some (rulesetNotFoundMsg n)) := by
  simp [evaluateRuleset, h]

/-- EvaluateRuleset when the ruleset is found. -/
theorem evaluateRuleset_found {re : RuleEngine} {n : String} {rs : Ruleset}
    (h : re.config.rulesets.lookup n = some rs) :
    evaluateRuleset re n =
      ({ rulesetName := n,
         passed := aggregatePassed rs.selector (evalMembers re rs.selector rs.rules),
         ruleResults := evalMembers re rs.selector rs.rules,
         error :=
           if aggregatePassed rs.selector (evalMembers re rs.selector rs.rules) then none
           else some (((customMsgs re).lookup n).getD (genericRulesetMsg n)) }, none) := by
  simp [evaluateRuleset, h]

/-- The AND (and default) aggregation. -/
theorem aggregatePassed_and {sel : String} (h : sel ≠ "OR")
    (rrs : List (String × RuleResult)) :
    aggregatePassed sel rrs = rrs.all (fun p => p.2.passed) := by
  unfold aggregatePassed
  by_cases h1 : sel = "AND"
  · rw [if_pos h1]
  · rw [if_neg h1, if_neg h]

/-- The OR aggregation. -/
theorem aggregatePassed_or (rrs : List (String × RuleResult)) :
    aggregatePassed "OR" rrs = rrs.any (fun p => p.2.passed) := by
  unfold aggregatePassed
  rw [if_neg (by decide), if_pos rfl]

/-! Cycle and dangling-reference detection (claim C8). -/

/-- A key is looked up successfully exactly when it is among the keys. -/
theorem lookup_isSome_iff_keys {α : Type} {rules : List (String × α)} {k : String} :
    (rules.lookup k).isSome = true ↔ k ∈ rules.map Prod.fst := by
  induction rules with
  | nil => simp [List.lookup]
  | cons hd tl ih =>
    by_cases h : k = hd.1
    · simp [List.lookup, h]
    · have hbeq : (k == hd.1) = false := by simpa using h
      simp [List.lookup, hbeq, ih, h]

/-- A walk along extends links that goes wrong, relative to the set of
already-visited targets: it revisits a visited ancestor (a cycle), or reaches
a target absent from the rule table (a dangling reference), possibly after
finitely many good steps. -/
inductive BadWalk (rules : List (String × Rule)) : String → List String → Prop where
  | cycle (t : String) (visited : List String) :
      t ≠ "" → t ∈ visited → BadWalk rules t visited
  | dangling (t : String) (visited : List String) :
      t ≠ "" → t ∉ visited → rules.lookup t = none → BadWalk rules t visited
  | step (t : String) (visited : List String) (parent : Rule) :
      t ≠ "" → t ∉ visited → rules.lookup t = some parent →
      BadWalk rules parent.extendsName (t :: visited) → BadWalk rules t visited

/-- A getRuleParents error always names the offending rule: it is the cycle
message or a dangling message for that rule. -/
def namesRule (m rname : String) : Prop :=
  m = cycleMsg rname ∨ ∃ t2, m = danglingMsg t2 rname

/-- A bad walk makes the parents walk fail with an error naming the rule,
for any `avail` state consistent with the visited set. -/
theorem parentsWalk_badWalk {rules : List (String × Rule)} (rname : String) :
    ∀ {t : String} {visited : List String}, BadWalk rules t visited →
      ∀ {avail : List String}, avail.Nodup →
        (∀ k ∈ avail, (rules.lookup k).isSome = true) →
        (∀ k, k ∈ visited ↔ ((rules.lookup k).isSome = true ∧ k ∉ avail)) →
        ∃ m, parentsWalk rules rname avail t = .error m ∧ namesRule m rname := by
  intro t visited hbad
  induction hbad with
  | cycle t visited hne hmem =>
    intro avail hnd hsome hinv
    have h2 := (hinv t).mp hmem
    refine ⟨cycleMsg rname, ?_, Or.inl rfl⟩
    rw [parentsWalk]
    rw [if_neg hne, dif_neg h2.2, if_pos h2.1]
  | dangling t visited hne hnv hnone =>
    intro avail hnd hsome hinv
    have hnav : t ∉ avail := by
      intro hmem
      have h2 := hsome t hmem
      rw [hnone] at h2
      simp at h2
    refine ⟨danglingMsg t rname, ?_, Or.inr ⟨t, rfl⟩⟩
    rw [parentsWalk]
    rw [if_neg hne, dif_neg hnav, if_neg (by simp [hnone])]
  | step t visited parent hne hnv hsome2 hbad2 ih =>
    intro avail hnd hsome hinv
    have hav : t ∈ avail := by
      by_contra hcon
      exact hnv ((hinv t).mpr ⟨by simp [hsome2], hcon⟩)
    obtain ⟨m, hm, hname⟩ := ih (hnd.erase t)
      (fun k hk => hsome k (List.mem_of_mem_erase hk))
      (by
        intro k
        by_cases hk : k = t
        · subst hk
          simp only [List.mem_cons, true_or, true_iff]
          refine ⟨by simp [hsome2], ?_⟩
          intro hcon
          exact absurd ((hnd.mem_erase_iff).mp hcon).1 (by simp)
        · constructor
          · intro hmem
            rcases List.mem_cons.mp hmem with h2 | h2
            · exact absurd h2 hk
            · obtain ⟨h3, h4⟩ := (hinv k).mp h2
              refine ⟨h3, ?_⟩
              intro hcon
              exact h4 (List.mem_of_mem_erase hcon)
          · rintro ⟨h3, h4⟩
            have h5 : k ∉ avail := by
              intro hcon
              exact h4 ((hnd.mem_erase_iff).mpr ⟨hk, hcon⟩)
            exact List.mem_cons.mpr (Or.inr ((hinv k).mpr ⟨h3, h5⟩)))
    refine ⟨m, ?_, hname⟩
    rw [parentsWalk]
    rw [if_neg hne, dif_pos hav]
    simp only [hsome2, hm]

/-- A bad extends walk from a rule makes getRuleParents fail with an error
naming that rule. -/
theorem getRuleParents_badWalk {rules : List (String × Rule)} {rule : Rule}
    (hnd : (rules.map Prod.fst).Nodup)
    (hbad : BadWalk rules rule.extendsName []) :
    ∃ m, getRuleParents rules rule = .error m ∧ namesRule m rule.name := by
  refine parentsWalk_badWalk rule.name hbad hnd ?_ ?_
  · intro k hk
    exact lookup_isSome_iff_keys.mpr hk
  · intro k
    simp only [List.not_mem_nil, false_iff, not_and, not_not]
    intro hk
    exact lookup_isSome_iff_keys.mp hk

/-- If getRuleParents fails for some rule of the table, the compile loop
fails. -/
theorem compileRulesAux_error {compile : String → Except String EvalOutcome}
    {allRules : List (String × Rule)} {rname : String} {rule : Rule}
    (hparents : ∃ m0, getRuleParents allRules rule = .error m0) :
    ∀ {iter : List (String × Rule)}, (rname, rule) ∈ iter →
      ∃ m, compileRulesAux compile allRules iter = .error m := by
  intro iter
  induction iter with
  | nil => intro h; exact absurd h (by simp)
  | cons hd rest ih =>
    intro hmem
    obtain ⟨n2, r2⟩ := hd
    cases hc : compile r2.expression with
    | error e =>
      exact ⟨"failed to compile program for rule " ++ n2 ++ ": " ++ e, by
        simp [compileRulesAux, hc]⟩
    | ok prog =>
      rcases List.mem_cons.mp hmem with h2 | h2
      · injection h2 with hn hr
        subst hn
        subst hr
        obtain ⟨m0, hm0⟩ := hparents
        exact ⟨"failed to find parent rules for rule " ++ rname ++ ": " ++ m0, by
          simp [compileRulesAux, hc, hm0]⟩
      · cases hp : getRuleParents allRules r2 with
        | error e =>
          exact ⟨"failed to find parent rules for rule " ++ n2 ++ ": " ++ e, by
            simp [compileRulesAux, hc, hp]⟩
        | ok ps =>
          obtain ⟨m, hm⟩ := ih h2
          exact ⟨m, by simp [compileRulesAux, hc, hp, hm]⟩

/-- The environment overlay never changes the rule table. -/
theorem applyEnvironment_rules {rc rc2 : RulesetConfig} {env : String}
    (h : applyEnvironment rc env = some rc2) : rc2.rules = rc.rules := by
  unfold applyEnvironment at h
  cases h1 : rc.environments.lookup env with
  | none =>
    rw [h1] at h
    simp only [Option.some.injEq] at h
    rw [← h]
  | some envC =>
    rw [h1] at h
    simp only at h
    cases h2 : (match envC.globals with
      | none => some rc.globals
      | some gs => mergeEntries rc.globals gs) with
    | none => rw [h2] at h; exact absurd h (by simp)
    | some newG =>
      rw [h2] at h
      simp only at h
      cases h3 : (match envC.errorHandling.customErrorMessages with
        | none => some rc.errorHandling.customErrorMessages
        | some ms => mergeEntries rc.errorHandling.customErrorMessages ms) with
      | none => rw [h3] at h; exact absurd h (by simp)
      | some newM =>
        rw [h3] at h
        simp only [Option.some.injEq] at h
        rw [← h]

/-! Concrete fixtures used by counterexamples and witnesses. -/

/-- A rule with only a name, an expression and an extends target. -/
def mkRule (n expr ext : String) : Rule :=
  { name := n, description := "", expression := expr, extendsName := ext }

/-- A policy table entry. -/
def mkPolicy (n : String) (stop : Bool) (met : String) : ExecutionPolicy :=
  { name := n, description := "", stopOnFailure := stop, maxExecutionTime := met }

/-- Duration parser stub: no string parses (never consulted by the fixtures,
whose policies leave max_execution_time empty). -/
def noParse : String → Option Nat := fun _ => none

/-- Configuration mirroring testdata/rules.yml as far as claim C1 needs it:
the domain_whitelist ruleset has no explicit rules, an inline expression and
an extends reference to the email_format rule. -/
def cfg1 : RulesetConfig :=
  { globals := some [],
    rules := [("email_format", mkRule "Email Format Check" "emailexpr" "")],
    rulesets :=
      [("domain_whitelist",
        { name := "Domain Whitelist Check", description := "",
          selector := "", rules := [], customRules := [],
          expression := "domainexpr", extendsName := "email_format" })],
    executionPolicies := [("collect_all", mkPolicy "Collect All Results" false "")],
    errorHandling :=
      { executionPolicy := "collect_all",
        customErrorMessages := some [("domain_whitelist", "email domain is not allowed")] },
    environments := [] }

/-- Compiler stub for cfg1: every expression compiles to a program that
evaluates to boolean true on the current context. -/
def cp1 : String → Except String EvalOutcome := fun _ => .ok (.ok (.bool true))

/-- The engine NewRuleEngine builds from cfg1. -/
def E1 : RuleEngine :=
  { config := cfg1,
    programs := [("email_format", .ok (.bool true))],
    parents := [("email_format", [])],
    policy := { stopOnFailure := false, maxExecutionTime := fiveSeconds } }

/-- C1: contrary to the claim (and to the tests of the repository, which for
this ruleset expect rule_results entries under the keys email_format and
ruleset.domain_whitelist), EvaluateRuleset evaluates only the explicit
ruleset `rules` list and compileRules compiles only the top-level rule
table: for the domain_whitelist-style ruleset (extends email_format, inline
expression, no explicit rules) the engine built by NewRuleEngine records no
rule results at all, passes trivially and compiles no ruleset-qualified
program. -/
theorem c1_no_effective_rule_list :
    newRuleEngine noParse cp1 cfg1 "development" = .ok E1 ∧
    (evaluateRuleset E1 "domain_whitelist").1.ruleResults = [] ∧
    (evaluateRuleset E1 "domain_whitelist").1.passed = true ∧
    (evaluateRuleset E1 "domain_whitelist").2 = none ∧
    E1.programs.map Prod.fst = ["email_format"] := by
  refine ⟨?_, by decide, by decide, by decide, by decide⟩
  simp [newRuleEngine, applyEnvironment, cfg1, getExecutionPolicy, compileRules,
        compileRulesAux, getRuleParents, parentsWalk, cp1, E1, mkRule, mkPolicy]

/-- Configuration for the C2/C6 scenarios: rule2 extends parent2; the program
of parent2 evaluates to boolean true and the own program of rule2 yields a
non-boolean value. -/
def cfg2 : RulesetConfig :=
  { globals := some [],
    rules := [("parent2", mkRule "parent2" "pexpr" ""),
              ("rule2", mkRule "rule2" "rexpr" "parent2")],
    rulesets := [],
    executionPolicies := [("default", mkPolicy "default" true "")],
    errorHandling := { executionPolicy := "default", customErrorMessages := none },
    environments := [] }

/-- Compiler stub for cfg2. -/
def cp2 : String → Except String EvalOutcome := fun s =>
  if s = "rexpr" then .ok (.ok (.nonBool 0)) else .ok (.ok (.bool true))

/-- The engine NewRuleEngine builds from cfg2. -/
def E2 : RuleEngine :=
  { config := cfg2,
    programs := [("parent2", .ok (.bool true)), ("rule2", .ok (.nonBool 0))],
    parents := [("parent2", []), ("rule2", ["parent2"])],
    policy := { stopOnFailure := true, maxExecutionTime := fiveSeconds } }

/-- C2, counterexample: in the engine built from cfg2 the rule rule2 comes
out passed=true although its own program does not evaluate to boolean true
(it yields a non-boolean, which leaves the passed flag at the value the
parent set): the claim that passed=true requires every program in the chain
to evaluate to boolean true is false. -/
theorem c2_counterexample :
    (evaluateRule E2 "rule2").1.passed = true ∧
    ¬(∀ r ∈ chainOf E2 "rule2", yieldsOkTrue E2 r) := by
  constructor
  · decide
  · intro h
    have h2 := h "rule2" (by decide)
    revert h2
    decide

/-- The counterexample engine E2 is genuinely reachable: NewRuleEngine
builds it from cfg2. -/
theorem E2_constructed : newRuleEngine noParse cp2 cfg2 "none" = .ok E2 := by
  simp [newRuleEngine, applyEnvironment, cfg2, getExecutionPolicy, compileRules,
        compileRulesAux, getRuleParents, parentsWalk, cp2, E2, mkRule, mkPolicy]

/-- C2, amended: EvaluateRule evaluates the precomputed chain (immediate
parent first, then the rule itself) as a front segment in order; the result
is passed=true iff the first program of the chain evaluates to boolean true
and every program of the chain evaluates without error with no boolean false
among the results (a non-boolean result leaves the running flag unchanged);
and no program after the first one that yields boolean false or errors is
evaluated. -/
theorem c2_amended (re : RuleEngine) (n : String) (rule : Rule)
    (hr : re.config.rules.lookup n = some rule)
    (hnd : (chainOf re n).Nodup) :
    (∃ rest2, chainOf re n = ruleTrace re n ++ rest2) ∧
    ((evaluateRule re n).1.passed = true ↔
      (∃ f rest, chainOf re n = f :: rest ∧ yieldsOkTrue re f) ∧
        ∀ r ∈ chainOf re n, yieldsOk re r ∧ ¬ yieldsOkFalse re r) ∧
    (∀ pre x post, chainOf re n = pre ++ x :: post →
      (yieldsErr re x ∨ yieldsOkFalse re x) →
      ∀ y ∈ post, y ∉ ruleTrace re n) := by
  refine ⟨?_, evaluateRule_passed_char hr, ?_⟩
  · rw [ruleTrace_eq]
    exact runChain_trace_front re.programs (chainOf re n) false
  · intro pre x post hchain hx y hy hytr
    rw [ruleTrace_eq, hchain] at hytr
    obtain ⟨rest2, hdec⟩ := runChain_trace_front re.programs (chainOf re n) false
    rw [hchain] at hdec
    have hbound := @runChain_stop_bound re.programs x post
      (by rcases hx with hx | hx
          · exact Or.inl hx
          · exact Or.inr hx) pre false
    rcases hbound with ⟨r2, hmiss⟩ | hbound
    · rw [hmiss] at hytr
      exact absurd hytr (by simp [traceOf])
    · have hmem : y ∈ pre ++ [x] := front_mem hdec hbound hytr
      rw [hchain] at hnd
      have hnd2 : ((pre ++ [x]) ++ post).Nodup := by
        simpa [List.append_assoc] using hnd
      obtain ⟨-, -, hdisj⟩ := List.nodup_append.mp hnd2
      exact hdisj hmem hy

/-- Witness for c2_amended at the concrete engine E2 and rule rule2. -/
theorem c2_amended_witness :
    (∃ rest2, chainOf E2 "rule2" = ruleTrace E2 "rule2" ++ rest2) ∧
    ((evaluateRule E2 "rule2").1.passed = true ↔
      (∃ f rest, chainOf E2 "rule2" = f :: rest ∧ yieldsOkTrue E2 f) ∧
        ∀ r ∈ chainOf E2 "rule2", yieldsOk E2 r ∧ ¬ yieldsOkFalse E2 r) ∧
    (∀ pre x post, chainOf E2 "rule2" = pre ++ x :: post →
      (yieldsErr E2 x ∨ yieldsOkFalse E2 x) →
      ∀ y ∈ post, y ∉ ruleTrace E2 "rule2") :=
  c2_amended E2 "rule2" (mkRule "rule2" "rexpr" "parent2") (by decide) (by decide)

/-- C3: for a ruleset whose selector is AND or unspecified, the result
passes exactly when every recorded rule result passed; and under a
stop-on-failure policy the member loop stops at the first member that fails
or errors: the recorded results are exactly the passing front plus that
member, so every recorded key comes from the front of the list up to and
including it. -/
theorem c3_and_failfast (re : RuleEngine) (n : String) (rs : Ruleset)
    (hrs : re.config.rulesets.lookup n = some rs)
    (hsel : rs.selector = "AND" ∨ rs.selector = "") :
    ((evaluateRuleset re n).1.passed = true ↔
      ∀ p ∈ (evaluateRuleset re n).1.ruleResults, p.2.passed = true) ∧
    (re.policy.stopOnFailure = true →
      ∀ pre m post, rs.rules = pre ++ m :: post →
        (∀ r ∈ pre, (evaluateRule re r).1.passed = true ∧ (evaluateRule re r).2 = none) →
        ((evaluateRule re m).1.passed = false ∨ (evaluateRule re m).2 ≠ none) →
        ((evaluateRuleset re n).1.ruleResults =
           pre.map (fun r => (r, (evaluateRule re r).1)) ++ [(m, (evaluateRule re m).1)] ∧
         ∀ k ∈ ((evaluateRuleset re n).1.ruleResults).map Prod.fst, k ∈ pre ++ [m])) := by
  have hselne : rs.selector ≠ "OR" := by
    rcases hsel with h | h <;> rw [h] <;> decide
  have hfound := evaluateRuleset_found hrs
  constructor
  · rw [hfound]
    show aggregatePassed rs.selector (evalMembers re rs.selector rs.rules) = true ↔
      ∀ p ∈ evalMembers re rs.selector rs.rules, p.2.passed = true
    rw [aggregatePassed_and hselne, List.all_eq_true]
  · intro hstop pre m post hrules hpre hm
    have heq := evalMembers_stop hselne hstop m post hpre hm
    have hres : (evaluateRuleset re n).1.ruleResults =
        pre.map (fun r => (r, (evaluateRule re r).1)) ++ [(m, (evaluateRule re m).1)] := by
      rw [hfound]
      show evalMembers re rs.selector rs.rules = _
      rw [hrules, heq]
    refine ⟨hres, ?_⟩
    intro k hk
    rw [hres, List.map_append] at hk
    rcases List.mem_append.mp hk with hk | hk
    · obtain ⟨p, hp, hpk⟩ := List.mem_map.mp hk
      obtain ⟨r, hr, hrp⟩ := List.mem_map.mp hp
      refine List.mem_append.mpr (Or.inl ?_)
      rw [← hpk, ← hrp]
      exact hr
    · simp only [List.map_cons, List.map_nil, List.mem_singleton] at hk
      exact List.mem_append.mpr (Or.inr (by simp [hk]))

/-- Ruleset fixture for C3: AND selector, a passing member, a failing member
and a member after the failure. -/
def rs3 : Ruleset :=
  { name := "rset3", description := "", selector := "AND",
    rules := ["good3", "bad3", "after3"], customRules := [],
    expression := "", extendsName := "" }

/-- Engine fixture for C3 (stop-on-failure policy). -/
def E3 : RuleEngine :=
  { config :=
      { globals := some [],
        rules := [("good3", mkRule "good3" "g" ""), ("bad3", mkRule "bad3" "b" ""),
                  ("after3", mkRule "after3" "a" "")],
        rulesets := [("rset3", rs3)],
        executionPolicies := [("fail_fast", mkPolicy "fail_fast" true "")],
        errorHandling := { executionPolicy := "fail_fast", customErrorMessages := none },
        environments := [] },
    programs := [("good3", .ok (.bool true)), ("bad3", .ok (.bool false)),
                 ("after3", .ok (.bool true))],
    parents := [("good3", []), ("bad3", []), ("after3", [])],
    policy := { stopOnFailure := true, maxExecutionTime := fiveSeconds } }

/-- Witness for c3_and_failfast at the concrete engine E3: the AND
aggregation equivalence, and fail-fast truncation after the failing member
bad3 (after3 is not recorded). -/
theorem c3_witness :
    ((evaluateRuleset E3 "rset3").1.passed = true ↔
      ∀ p ∈ (evaluateRuleset E3 "rset3").1.ruleResults, p.2.passed = true) ∧
    (evaluateRuleset E3 "rset3").1.ruleResults =
      [("good3", (evaluateRule E3 "good3").1), ("bad3", (evaluateRule E3 "bad3").1)] ∧
    ∀ k ∈ ((evaluateRuleset E3 "rset3").1.ruleResults).map Prod.fst,
      k ∈ ["good3"] ++ ["bad3"] := by
  have h := c3_and_failfast E3 "rset3" rs3 (by decide) (Or.inl rfl)
  have h2 := h.2 rfl ["good3"] "bad3" ["after3"] rfl (by decide) (by decide)
  exact ⟨h.1, h2.1, h2.2⟩

/-- C4: for a ruleset whose selector is OR, every member is evaluated and
recorded in declared order whatever the policy says, and the result passes
exactly when at least one recorded rule result passed. -/
theorem c4_or (re : RuleEngine) (n : String) (rs : Ruleset)
    (hrs : re.config.rulesets.lookup n = some rs)
    (hsel : rs.selector = "OR") :
    (evaluateRuleset re n).1.ruleResults =
      rs.rules.map (fun r => (r, (evaluateRule re r).1)) ∧
    ((evaluateRuleset re n).1.passed = true ↔
      ∃ p ∈ (evaluateRuleset re n).1.ruleResults, p.2.passed = true) := by
  have hfound := evaluateRuleset_found hrs
  have hmem := @evalMembers_no_stop re rs.selector (Or.inl hsel) rs.rules
  constructor
  · rw [hfound]
    exact hmem
  · rw [hfound]
    show aggregatePassed rs.selector (evalMembers re rs.selector rs.rules) = true ↔
      ∃ p ∈ evalMembers re rs.selector rs.rules, p.2.passed = true
    rw [hsel, aggregatePassed_or, List.any_eq_true]

/-- Ruleset fixture for C4: OR selector, a failing member before a passing
one. -/
def rs4 : Ruleset :=
  { name := "rset4", description := "", selector := "OR",
    rules := ["fail4", "pass4"], customRules := [],
    expression := "", extendsName := "" }

/-- Engine fixture for C4: the policy says stop on failure, yet OR must
evaluate all members. -/
def E4 : RuleEngine :=
  { config :=
      { globals := some [],
        rules := [("fail4", mkRule "fail4" "f" ""), ("pass4", mkRule "pass4" "p" "")],
        rulesets := [("rset4", rs4)],
        executionPolicies := [("fail_fast", mkPolicy "fail_fast" true "")],
        errorHandling := { executionPolicy := "fail_fast", customErrorMessages := none },
        environments := [] },
    programs := [("fail4", .ok (.bool false)), ("pass4", .ok (.bool true))],
    parents := [("fail4", []), ("pass4", [])],
    policy := { stopOnFailure := true, maxExecutionTime := fiveSeconds } }

/-- Witness for c4_or at the concrete engine E4: both members recorded
although the first fails under a stop-on-failure policy, and the OR
aggregation equivalence. -/
theorem c4_witness :
    (evaluateRuleset E4 "rset4").1.ruleResults =
      [("fail4", (evaluateRule E4 "fail4").1), ("pass4", (evaluateRule E4 "pass4").1)] ∧
    ((evaluateRuleset E4 "rset4").1.passed = true ↔
      ∃ p ∈ (evaluateRuleset E4 "rset4").1.ruleResults, p.2.passed = true) :=
  c4_or E4 "rset4" rs4 (by decide) rfl

/-- C5: when an evaluation error is reached in the chain (after an
error-free front whose first program yields boolean true and none boolean
false), EvaluateRule returns a nil top-level error and a failed RuleResult
carrying the evaluation error verbatim, whatever the custom_error_messages
table holds; and when no program of the chain errors and the outcome is
passed=false, the result error is the mapped custom message, or the generic
did-not-pass message when the rule name is absent from the table. -/
theorem c5_error_passthrough (re : RuleEngine) (n : String) (rule : Rule)
    (hr : re.config.rules.lookup n = some rule) :
    (∀ pre x post e, chainOf re n = pre ++ x :: post →
      (∀ r ∈ pre, yieldsOk re r) →
      (∀ r ∈ pre, ¬ yieldsOkFalse re r) →
      (pre = [] ∨ ∃ f rest, pre = f :: rest ∧ yieldsOkTrue re f) →
      re.programs.lookup x = some (.err e) →
      evaluateRule re n = ({ ruleName := n, passed := false, error := some e }, none)) ∧
    ((∀ r ∈ chainOf re n, yieldsOk re r) →
      (evaluateRule re n).1.passed = false →
      (evaluateRule re n).1.error =
        some (((customMsgs re).lookup n).getD (genericRuleMsg n)) ∧
      (evaluateRule re n).2 = none) := by
  constructor
  · intro pre x post e hchain hok hnf hhead hx
    have hrun : runChain re.programs false (chainOf re n) = .evalErr e (pre ++ [x]) := by
      rw [hchain]
      exact runChain_false_err hok hnf hhead hx
    exact evaluateRule_evalErr hr hrun
  · intro hok hfail
    obtain ⟨q, tr, hrun⟩ := runChain_ok_done false hok
    have heval := evaluateRule_done hr hrun
    cases q with
    | true => rw [heval] at hfail; exact absurd hfail (by simp)
    | false => rw [heval]; exact ⟨rfl, rfl⟩

/-- Engine fixture for C5: the rule err5 extends ok5; the program of ok5
yields boolean true, the program of err5 errors; the rule fail5 yields boolean false;
both have entries in the custom message table. -/
def E5 : RuleEngine :=
  { config :=
      { globals := some [],
        rules := [("ok5", mkRule "ok5" "o" ""), ("err5", mkRule "err5" "e" "ok5"),
                  ("fail5", mkRule "fail5" "f" ""), ("plain5", mkRule "plain5" "p" "")],
        rulesets := [],
        executionPolicies := [("default", mkPolicy "default" true "")],
        errorHandling :=
          { executionPolicy := "default",
            customErrorMessages := some [("err5", "custom err5"), ("fail5", "custom fail5")] },
        environments := [] },
    programs := [("ok5", .ok (.bool true)), ("err5", .err "boom"),
                 ("fail5", .ok (.bool false)), ("plain5", .ok (.bool false))],
    parents := [("ok5", []), ("err5", ["ok5"]), ("fail5", []), ("plain5", [])],
    policy := { stopOnFailure := true, maxExecutionTime := fiveSeconds } }

/-- Witness for c5_error_passthrough at the engine E5: the error of err5 is
passed through verbatim (its custom message is ignored), the boolean-false
failure of fail5 gets its custom message, and the boolean-false failure of
plain5 (absent from the table) gets the generic message. -/
theorem c5_witness :
    evaluateRule E5 "err5" = ({ ruleName := "err5", passed := false,
                                error := some "boom" }, none) ∧
    (evaluateRule E5 "fail5").1.error =
      some (((customMsgs E5).lookup "fail5").getD (genericRuleMsg "fail5")) ∧
    (evaluateRule E5 "fail5").1.error = some "custom fail5" ∧
    (evaluateRule E5 "plain5").1.error = some (genericRuleMsg "plain5") ∧
    (evaluateRule E5 "plain5").2 = none := by
  have herr := (c5_error_passthrough E5 "err5" (mkRule "err5" "e" "ok5") (by decide)).1
    ["ok5"] "err5" [] "boom" rfl
    (by intro r hr2; simp at hr2; subst hr2; exact ⟨.bool true, rfl⟩)
    (by decide)
    (Or.inr ⟨"ok5", [], rfl, by decide⟩)
    (by decide)
  have hfail := (c5_error_passthrough E5 "fail5" (mkRule "fail5" "f" "")
      (by decide)).2
    (by
      intro r hr2
      have hc : chainOf E5 "fail5" = ["fail5"] := by decide
      rw [hc] at hr2
      simp at hr2
      subst hr2
      exact ⟨.bool false, by decide⟩)
    (by decide)
  have hplain := (c5_error_passthrough E5 "plain5" (mkRule "plain5" "p" "")
      (by decide)).2
    (by
      intro r hr2
      have hc : chainOf E5 "plain5" = ["plain5"] := by decide
      rw [hc] at hr2
      simp at hr2
      subst hr2
      exact ⟨.bool false, by decide⟩)
    (by decide)
  exact ⟨herr, hfail.1, by rw [hfail.1]; decide, by rw [hplain.1]; decide, hplain.2⟩

/-- Engine fixture for C6: rule6 extends parent6 (true program, non-boolean
own program), and solo6 has a non-boolean program with no parent. -/
def E6 : RuleEngine :=
  { config :=
      { globals := some [],
        rules := [("parent6", mkRule "parent6" "p" ""),
                  ("rule6", mkRule "rule6" "r" "parent6"),
                  ("solo6", mkRule "solo6" "s" "")],
        rulesets := [],
        executionPolicies := [("default", mkPolicy "default" true "")],
        errorHandling := { executionPolicy := "default", customErrorMessages := none },
        environments := [] },
    programs := [("parent6", .ok (.bool true)), ("rule6", .ok (.nonBool 1)),
                 ("solo6", .ok (.nonBool 2))],
    parents := [("parent6", []), ("rule6", ["parent6"]), ("solo6", [])],
    policy := { stopOnFailure := true, maxExecutionTime := fiveSeconds } }

/-- C6, counterexample: the program of rule6 evaluates without error to a
non-boolean value at the last position of its chain, yet EvaluateRule does
not treat that step as passed=false: the result is passed=true, because the
non-boolean result leaves the flag at the true value set by the parent. -/
theorem c6_counterexample :
    E6.programs.lookup "rule6" = some (.ok (.nonBool 1)) ∧
    "rule6" ∈ chainOf E6 "rule6" ∧
    (evaluateRule E6 "rule6").1.passed = true := by
  refine ⟨by decide, by decide, by decide⟩

/-- The counterexample engine E6 is genuinely reachable: NewRuleEngine
builds it from its own configuration. -/
theorem E6_constructed :
    newRuleEngine noParse
      (fun s => if s = "p" then .ok (.ok (.bool true))
                else if s = "r" then .ok (.ok (.nonBool 1))
                else .ok (.ok (.nonBool 2)))
      E6.config "none" = .ok E6 := by
  simp [newRuleEngine, applyEnvironment, E6, getExecutionPolicy, compileRules,
        compileRulesAux, getRuleParents, parentsWalk, mkRule, mkPolicy]

/-- C6, amended: a non-boolean result leaves the running passed flag
unchanged and never raises an error. In particular, when the first program
of the chain yields a non-boolean the walk stops there with passed=false
(the flag still holds its initial false value); when every program before
and after a non-boolean one yields boolean true, the rule passes; and
whenever every program of the chain evaluates without error, the returned
top-level error is nil (no type error is raised). -/
theorem c6_amended (re : RuleEngine) (n : String) (rule : Rule)
    (hr : re.config.rules.lookup n = some rule) :
    (∀ f rest v, chainOf re n = f :: rest →
      re.programs.lookup f = some (.ok (.nonBool v)) →
      (evaluateRule re n).1.passed = false ∧ (evaluateRule re n).2 = none ∧
        ruleTrace re n = [f]) ∧
    (∀ pre x post v, chainOf re n = pre ++ x :: post → pre ≠ [] →
      (∀ r ∈ pre, yieldsOkTrue re r) →
      re.programs.lookup x = some (.ok (.nonBool v)) →
      (∀ r ∈ post, yieldsOkTrue re r) →
      (evaluateRule re n).1.passed = true) ∧
    ((∀ r ∈ chainOf re n, yieldsOk re r) → (evaluateRule re n).2 = none) := by
  refine ⟨?_, ?_, ?_⟩
  · intro f rest v hchain hf
    have hrun : runChain re.programs false (chainOf re n) = .done false [f] := by
      rw [hchain]
      exact runChain_cons_ok_false hf (by simp [stepFlag])
    have heval := evaluateRule_done hr hrun
    rw [heval]
    refine ⟨by simp, by simp, ?_⟩
    rw [ruleTrace_eq, hrun]
    rfl
  · intro pre x post v hchain hne hpre hx hpost
    obtain ⟨f, pre2, hf⟩ := List.exists_cons_of_ne_nil hne
    rw [evaluateRule_passed_char hr]
    constructor
    · exact ⟨f, pre2 ++ x :: post, by rw [hchain, hf, List.cons_append],
        hpre f (by rw [hf]; simp)⟩
    · intro r hr2
      rw [hchain] at hr2
      rcases List.mem_append.mp hr2 with h2 | h2
      · have := hpre r h2
        exact ⟨⟨.bool true, this⟩, by simp [this]⟩
      · rcases List.mem_cons.mp h2 with h3 | h3
        · subst h3
          exact ⟨⟨.nonBool v, hx⟩, by simp [hx]⟩
        · have := hpost r h3
          exact ⟨⟨.bool true, this⟩, by simp [this]⟩
  · intro hok
    obtain ⟨q, tr, hrun⟩ := runChain_ok_done false hok
    rw [evaluateRule_done hr hrun]
    cases q <;> simp

/-- Witness for c6_amended at the engine E6: solo6 (non-boolean first
program) fails without error and stops immediately; rule6 (true parent,
non-boolean own program) passes; the non-boolean chains raise no error. -/
theorem c6_witness :
    ((evaluateRule E6 "solo6").1.passed = false ∧ (evaluateRule E6 "solo6").2 = none ∧
      ruleTrace E6 "solo6" = ["solo6"]) ∧
    (evaluateRule E6 "rule6").1.passed = true ∧
    (evaluateRule E6 "rule6").2 = none := by
  have hsolo := (c6_amended E6 "solo6" (mkRule "solo6" "s" "") (by decide)).1
    "solo6" [] 2 (by decide) (by decide)
  have hpass := (c6_amended E6 "rule6" (mkRule "rule6" "r" "parent6") (by decide)).2.1
    ["parent6"] "rule6" [] 1 (by decide) (by decide)
    (by intro r hr2; simp at hr2; subst hr2; decide)
    (by decide)
    (by intro r hr2; simp at hr2)
  have hnoerr := (c6_amended E6 "rule6" (mkRule "rule6" "r" "parent6") (by decide)).2.2
    (by
      intro r hr2
      have hc : chainOf E6 "rule6" = ["parent6", "rule6"] := by decide
      rw [hc] at hr2
      simp at hr2
      rcases hr2 with h2 | h2 <;> subst h2
      · exact ⟨.bool true, by decide⟩
      · exact ⟨.nonBool 1, by decide⟩)
  exact ⟨hsolo, hpass, hnoerr⟩

/-- C9: EvaluateRuleset returns a non-nil error exactly when the ruleset
name is absent from the ruleset table; an error from evaluating a member
rule is not propagated: the member whose name is absent from the rule table
is recorded as the zero-value RuleResult (empty name, passed=false, nil
error) with the lookup error returned only inside EvaluateRule, and when
fail-fast does not apply (OR selector or non-stop policy) every member,
including the ones after the erroring member, is still evaluated and
recorded. -/
theorem c9_member_errors (re : RuleEngine) (n : String) :
    ((evaluateRuleset re n).2 ≠ none ↔ re.config.rulesets.lookup n = none) ∧
    (∀ m, re.config.rules.lookup m = none →
      (evaluateRule re m).1 = zeroRuleResult ∧
      (evaluateRule re m).2 = some (ruleNotFoundMsg m)) ∧
    (∀ rs, re.config.rulesets.lookup n = some rs →
      (rs.selector = "OR" ∨ re.policy.stopOnFailure = false) →
      (evaluateRuleset re n).1.ruleResults =
        rs.rules.map (fun r => (r, (evaluateRule re r).1))) := by
  refine ⟨?_, ?_, ?_⟩
  · cases h : re.config.rulesets.lookup n with
    | none =>
      rw [evaluateRuleset_notfound h]
      simp [rulesetNotFoundMsg]
    | some rs =>
      rw [evaluateRuleset_found h]
      simp
  · intro m hm
    rw [evaluateRule_notfound hm]
    exact ⟨rfl, rfl⟩
  · intro rs h hsel
    rw [evaluateRuleset_found h]
    exact evalMembers_no_stop hsel rs.rules

/-- Ruleset fixture for C9: OR selector, a member absent from the rule table
followed by an ordinary member. -/
def rs9 : Ruleset :=
  { name := "rset9", description := "", selector := "OR",
    rules := ["missing9", "r9b"], customRules := [],
    expression := "", extendsName := "" }

/-- Engine fixture for C9. -/
def E9 : RuleEngine :=
  { config :=
      { globals := some [],
        rules := [("r9b", mkRule "r9b" "b" "")],
        rulesets := [("rset9", rs9)],
        executionPolicies := [("default", mkPolicy "default" true "")],
        errorHandling := { executionPolicy := "default", customErrorMessages := none },
        environments := [] },
    programs := [("r9b", .ok (.bool true))],
    parents := [("r9b", [])],
    policy := { stopOnFailure := true, maxExecutionTime := fiveSeconds } }

/-- Witness for c9_member_errors at the engine E9: evaluating an unknown
ruleset errors, evaluating rset9 does not; the member missing9 (absent from
the rule table) is recorded as the zero-value RuleResult and the following
member is still evaluated. -/
theorem c9_witness :
    ((evaluateRuleset E9 "unknown9").2 ≠ none) ∧
    ((evaluateRuleset E9 "rset9").2 = none) ∧
    ((evaluateRule E9 "missing9").1 = zeroRuleResult ∧
      (evaluateRule E9 "missing9").2 = some (ruleNotFoundMsg "missing9")) ∧
    (evaluateRuleset E9 "rset9").1.ruleResults =
      [("missing9", (evaluateRule E9 "missing9").1), ("r9b", (evaluateRule E9 "r9b").1)] := by
  have h := c9_member_errors E9 "rset9"
  have hu := c9_member_errors E9 "unknown9"
  refine ⟨hu.1.mpr (by decide), ?_, h.2.1 "missing9" (by decide), ?_⟩
  · by_contra hcon
    exact absurd (h.1.mp hcon) (by decide)
  · exact h.2.2 rs9 (by decide) (Or.inl rfl)

/-- C7: the policy resolver starts from the defaults (stop_on_failure=true,
5s): when the active policy name is absent it returns them together with an
error and engine construction fails; when the non-empty
max_execution_time of the found policy does not parse it returns the defaults with an error and
construction fails; when the found policy has an empty max_execution_time
the 5s default is kept; and on every successful resolution the
stop_on_failure of the found policy overrides the default. -/
theorem c7_policy_resolver (pd : String → Option Nat) (rc : RulesetConfig) :
    (rc.executionPolicies.lookup rc.errorHandling.executionPolicy = none →
      getExecutionPolicy pd rc =
        ({ stopOnFailure := true, maxExecutionTime := fiveSeconds },
         some (policyNotFoundMsg rc.errorHandling.executionPolicy)) ∧
      ∀ compile env cfg0 eng, applyEnvironment cfg0 env = some rc →
        newRuleEngine pd compile cfg0 env ≠ .ok eng) ∧
    (∀ p, rc.executionPolicies.lookup rc.errorHandling.executionPolicy = some p →
      p.maxExecutionTime ≠ "" → pd p.maxExecutionTime = none →
      getExecutionPolicy pd rc =
        ({ stopOnFailure := true, maxExecutionTime := fiveSeconds },
         some invalidDurationMsg) ∧
      ∀ compile env cfg0 eng, applyEnvironment cfg0 env = some rc →
        newRuleEngine pd compile cfg0 env ≠ .ok eng) ∧
    (∀ p, rc.executionPolicies.lookup rc.errorHandling.executionPolicy = some p →
      p.maxExecutionTime = "" →
      getExecutionPolicy pd rc =
        ({ stopOnFailure := p.stopOnFailure, maxExecutionTime := fiveSeconds }, none)) ∧
    (∀ p dur, rc.executionPolicies.lookup rc.errorHandling.executionPolicy = some p →
      p.maxExecutionTime ≠ "" → pd p.maxExecutionTime = some dur →
      getExecutionPolicy pd rc =
        ({ stopOnFailure := p.stopOnFailure, maxExecutionTime := dur }, none)) := by
  refine ⟨?_, ?_, ?_, ?_⟩
  · intro h
    have hgep : getExecutionPolicy pd rc =
        ({ stopOnFailure := true, maxExecutionTime := fiveSeconds },
         some (policyNotFoundMsg rc.errorHandling.executionPolicy)) := by
      simp [getExecutionPolicy, h]
    refine ⟨hgep, ?_⟩
    intro compile env cfg0 eng happ hok
    unfold newRuleEngine at hok
    rw [happ] at hok
    simp only [hgep] at hok
    exact absurd hok (by simp)
  · intro p h hne hparse
    have hgep : getExecutionPolicy pd rc =
        ({ stopOnFailure := true, maxExecutionTime := fiveSeconds },
         some invalidDurationMsg) := by
      simp [getExecutionPolicy, h, hne, hparse]
    refine ⟨hgep, ?_⟩
    intro compile env cfg0 eng happ hok
    unfold newRuleEngine at hok
    rw [happ] at hok
    simp only [hgep] at hok
    exact absurd hok (by simp)
  · intro p h hempty
    simp [getExecutionPolicy, h, hempty]
  · intro p dur h hne hparse
    simp [getExecutionPolicy, h, hne, hparse]

/-- Configuration fixture for C7, case policy-not-found. -/
def rc7a : RulesetConfig :=
  { globals := some [], rules := [], rulesets := [],
    executionPolicies := [("fail_fast", mkPolicy "fail_fast" true "1ns")],
    errorHandling := { executionPolicy := "unknown_policy", customErrorMessages := some [] },
    environments := [] }

/-- Configuration fixture for C7, case unparsable duration. -/
def rc7b : RulesetConfig :=
  { globals := some [], rules := [], rulesets := [],
    executionPolicies := [("bad_time", mkPolicy "bad_time" false "1nsss")],
    errorHandling := { executionPolicy := "bad_time", customErrorMessages := some [] },
    environments := [] }

/-- Configuration fixture for C7, case empty duration with stop=false. -/
def rc7c : RulesetConfig :=
  { globals := some [], rules := [], rulesets := [],
    executionPolicies := [("collect_all", mkPolicy "collect_all" false "")],
    errorHandling := { executionPolicy := "collect_all", customErrorMessages := some [] },
    environments := [] }

/-- Configuration fixture for C7, case parsable duration. -/
def rc7d : RulesetConfig :=
  { globals := some [], rules := [], rulesets := [],
    executionPolicies := [("fail_fast", mkPolicy "fail_fast" true "1ns")],
    errorHandling := { executionPolicy := "fail_fast", customErrorMessages := some [] },
    environments := [] }

/-- Duration parser fixture for C7: only the string 1ns parses (to 1). -/
def pd7 : String → Option Nat := fun s => if s = "1ns" then some 1 else none

/-- Witness for c7_policy_resolver at the four concrete configurations. -/
theorem c7_witness :
    getExecutionPolicy pd7 rc7a =
      ({ stopOnFailure := true, maxExecutionTime := fiveSeconds },
       some (policyNotFoundMsg "unknown_policy")) ∧
    (newRuleEngine pd7 (fun _ => .ok (.ok (.bool true))) rc7a "e" ≠
      .ok { config := rc7a, programs := [], parents := [],
            policy := { stopOnFailure := true, maxExecutionTime := 0 } }) ∧
    getExecutionPolicy pd7 rc7b =
      ({ stopOnFailure := true, maxExecutionTime := fiveSeconds },
       some invalidDurationMsg) ∧
    getExecutionPolicy pd7 rc7c =
      ({ stopOnFailure := false, maxExecutionTime := fiveSeconds }, none) ∧
    getExecutionPolicy pd7 rc7d =
      ({ stopOnFailure := true, maxExecutionTime := 1 }, none) := by
  have ha := (c7_policy_resolver pd7 rc7a).1 (by decide)
  have hb := (c7_policy_resolver pd7 rc7b).2.1 (mkPolicy "bad_time" false "1nsss")
    (by decide) (by decide) (by decide)
  have hc := (c7_policy_resolver pd7 rc7c).2.2.1 (mkPolicy "collect_all" false "")
    (by decide) rfl
  have hd := (c7_policy_resolver pd7 rc7d).2.2.2 (mkPolicy "fail_fast" true "1ns") 1
    (by decide) (by decide) (by decide)
  exact ⟨ha.1, ha.2 (fun _ => .ok (.ok (.bool true))) "e" rc7a _ (by decide),
    hb.1, hc, hd⟩

/-- C8: when the extends walk from a configured rule goes wrong, cycle or
dangling reference, getRuleParents fails with an error naming the offending
rule, compileRules fails, and no engine is ever returned by NewRuleEngine
for any configuration carrying that rule table, so the bad configuration can
never reach evaluation. -/
theorem c8_cycle_dangling (rules : List (String × Rule)) (rname : String) (rule : Rule)
    (hnd : (rules.map Prod.fst).Nodup)
    (hmem : (rname, rule) ∈ rules)
    (hbad : BadWalk rules rule.extendsName []) :
    (∃ m, getRuleParents rules rule = .error m ∧ namesRule m rule.name) ∧
    (∀ compile, ∃ m, compileRules compile rules = .error m) ∧
    (∀ pd compile cfg0 env eng, cfg0.rules = rules →
      newRuleEngine pd compile cfg0 env ≠ .ok eng) := by
  have hgp := getRuleParents_badWalk hnd hbad
  obtain ⟨m0, hm0, hname0⟩ := hgp
  have hcomp : ∀ compile, ∃ m, compileRules compile rules = .error m := by
    intro compile
    exact compileRulesAux_error ⟨m0, hm0⟩ hmem
  refine ⟨⟨m0, hm0, hname0⟩, hcomp, ?_⟩
  intro pd compile cfg0 env eng hcfg hok
  unfold newRuleEngine at hok
  cases happ : applyEnvironment cfg0 env with
  | none => rw [happ] at hok; simp at hok
  | some config =>
    rw [happ] at hok
    simp only at hok
    have hrules : config.rules = rules := by
      rw [applyEnvironment_rules happ, hcfg]
    cases hgep : getExecutionPolicy pd config with
    | mk pol oerr =>
      rw [hgep] at hok
      cases oerr with
      | some e => simp at hok
      | none =>
        simp only at hok
        obtain ⟨m, hm⟩ := hcomp compile
        rw [hrules, hm] at hok
        simp at hok

/-- Rule table fixture for C8: a8 extends b8 and b8 extends a8 (a cycle);
d8 extends a name absent from the table (dangling). -/
def rules8 : List (String × Rule) :=
  [("a8", mkRule "a8" "e" "b8"), ("b8", mkRule "b8" "e" "a8"),
   ("d8", mkRule "d8" "e" "ghost8")]

/-- Configuration fixture for C8 carrying rules8. -/
def cfg8 : RulesetConfig :=
  { globals := some [], rules := rules8, rulesets := [],
    executionPolicies := [("default", mkPolicy "default" true "")],
    errorHandling := { executionPolicy := "default", customErrorMessages := some [] },
    environments := [] }

/-- The extends walk from rule a8 of rules8 is a cycle. -/
theorem badWalk8 : BadWalk rules8 (mkRule "a8" "e" "b8").extendsName [] := by
  refine BadWalk.step "b8" [] (mkRule "b8" "e" "a8") (by decide) (by decide) (by decide)
    (BadWalk.step "a8" ["b8"] (mkRule "a8" "e" "b8") (by decide) (by decide) (by decide)
      (BadWalk.cycle "b8" ["a8", "b8"] (by decide) (by decide)))

/-- Witness for c8_cycle_dangling at the cyclic rule table rules8: the
parent computation for a8 fails naming a8, compilation fails, and the
construction of an engine from cfg8 fails. -/
theorem c8_witness :
    (∃ m, getRuleParents rules8 (mkRule "a8" "e" "b8") = .error m ∧ namesRule m "a8") ∧
    (∃ m, compileRules (fun _ => .ok (.ok (.bool true))) rules8 = .error m) ∧
    (newRuleEngine noParse (fun _ => .ok (.ok (.bool true))) cfg8 "x" ≠
      .ok { config := cfg8, programs := [], parents := [],
            policy := { stopOnFailure := true, maxExecutionTime := 0 } }) := by
  have h := c8_cycle_dangling rules8 "a8" (mkRule "a8" "e" "b8")
    (by decide) (by decide) badWalk8
  exact ⟨h.1, h.2.1 _, h.2.2 noParse _ cfg8 "x" _ rfl⟩

/-- C10: ApplyEnvironment is partial. When the selected environment carries
at least one globals entry while the base globals map is nil, or at least
one custom_error_messages entry while the base message map is nil, the
key-by-key merge panics on the assignment into the nil map; when both base
maps are non-nil the merge always completes. -/
theorem c10_apply_environment_panic (rc : RulesetConfig) (env : String) :
    (∀ e k v rest, rc.environments.lookup env = some e →
      e.globals = some ((k, v) :: rest) → rc.globals = none →
      applyEnvironment rc env = none) ∧
    (∀ e k v rest, rc.environments.lookup env = some e →
      e.errorHandling.customErrorMessages = some ((k, v) :: rest) →
      rc.errorHandling.customErrorMessages = none → rc.globals ≠ none →
      applyEnvironment rc env = none) ∧
    (rc.globals ≠ none → rc.errorHandling.customErrorMessages ≠ none →
      applyEnvironment rc env ≠ none) := by
  refine ⟨?_, ?_, ?_⟩
  · intro e k v rest henv hg hnil
    simp [applyEnvironment, henv, hg, hnil, mergeEntries]
  · intro e k v rest henv hm hnil hg
    obtain ⟨gs, hgs⟩ := Option.ne_none_iff_exists'.mp hg
    cases he : e.globals with
    | none => simp [applyEnvironment, henv, he, hm, hnil, mergeEntries]
    | some gentries =>
      cases gentries with
      | nil => simp [applyEnvironment, henv, he, hm, hnil, mergeEntries]
      | cons g grest =>
        simp [applyEnvironment, henv, he, hm, hnil, hgs, mergeEntries]
  · intro hg hm
    obtain ⟨gs, hgs⟩ := Option.ne_none_iff_exists'.mp hg
    obtain ⟨ms, hms⟩ := Option.ne_none_iff_exists'.mp hm
    cases henv : rc.environments.lookup env with
    | none => simp [applyEnvironment, henv]
    | some e =>
      have hstep1 : ∀ gsrc, mergeEntries rc.globals gsrc ≠ none := by
        intro gsrc
        cases gsrc with
        | nil => simp [mergeEntries]
        | cons g grest => simp [mergeEntries, hgs]
      have hstep2 : ∀ msrc, mergeEntries rc.errorHandling.customErrorMessages msrc ≠ none := by
        intro msrc
        cases msrc with
        | nil => simp [mergeEntries]
        | cons m0 mrest => simp [mergeEntries, hms]
      cases he : e.globals with
      | none =>
        cases hem : e.errorHandling.customErrorMessages with
        | none => simp [applyEnvironment, henv, he, hem]
        | some msrc =>
          obtain ⟨m2, hm2⟩ := Option.ne_none_iff_exists'.mp (hstep2 msrc)
          simp [applyEnvironment, henv, he, hem, hm2]
      | some gsrc =>
        obtain ⟨g2, hg2⟩ := Option.ne_none_iff_exists'.mp (hstep1 gsrc)
        cases hem : e.errorHandling.customErrorMessages with
        | none => simp [applyEnvironment, henv, he, hem, hg2]
        | some msrc =>
          obtain ⟨m2, hm2⟩ := Option.ne_none_iff_exists'.mp (hstep2 msrc)
          simp [applyEnvironment, henv, he, hem, hg2, hm2]

/-- Configuration fixture for C10: nil base globals, an environment with a
globals entry. -/
def rc10a : RulesetConfig :=
  { globals := none, rules := [], rulesets := [], executionPolicies := [],
    errorHandling := { executionPolicy := "", customErrorMessages := some [] },
    environments :=
      [("production",
        { globals := some [("min_age", 18)], executionPolicy := "",
          errorHandling := { executionPolicy := "", customErrorMessages := none } })] }

/-- Configuration fixture for C10: nil base message map, an environment with
a custom message entry. -/
def rc10b : RulesetConfig :=
  { globals := some [], rules := [], rulesets := [], executionPolicies := [],
    errorHandling := { executionPolicy := "", customErrorMessages := none },
    environments :=
      [("production",
        { globals := none, executionPolicy := "",
          errorHandling :=
            { executionPolicy := "",
              customErrorMessages := some [("age_validation", "too young")] } })] }

/-- Configuration fixture for C10: both base maps non-nil. -/
def rc10c : RulesetConfig :=
  { globals := some [("min_age", 13)], rules := [], rulesets := [],
    executionPolicies := [],
    errorHandling := { executionPolicy := "", customErrorMessages := some [] },
    environments :=
      [("production",
        { globals := some [("min_age", 18)], executionPolicy := "",
          errorHandling :=
            { executionPolicy := "",
              customErrorMessages := some [("age_validation", "too young")] } })] }

/-- Witness for c10_apply_environment_panic at the three concrete
configurations: both panic cases fire and the non-nil precondition makes
the merge total. -/
theorem c10_witness :
    applyEnvironment rc10a "production" = none ∧
    applyEnvironment rc10b "production" = none ∧
    applyEnvironment rc10c "production" ≠ none := by
  refine ⟨?_, ?_, ?_⟩
  · exact (c10_apply_environment_panic rc10a "production").1
      { globals := some [("min_age", 18)], executionPolicy := "",
        errorHandling := { executionPolicy := "", customErrorMessages := none } }
      "min_age" 18 [] (by decide) (by decide) (by decide)
  · exact (c10_apply_environment_panic rc10b "production").2.1
      { globals := none, executionPolicy := "",
        errorHandling :=
          { executionPolicy := "",
            customErrorMessages := some [("age_validation", "too young")] } }
      "age_validation" "too young" [] (by decide) (by decide) (by decide) (by decide)
  · exact (c10_apply_environment_panic rc10c "production").2.2
      (by decide) (by decide)

end Ruleengine
